import Mathlib

/-!
Shallow embedding of the cover-resolution logic of epub-thumbnailer
(src/epub-thumbnailer.py) together with theorems settling the claims
about it.

Modelling conventions:
- An XML document parsed by minidom is a tree of elements; text nodes are
  irrelevant to the program (it only queries elements by tag name and reads
  attributes), so they are omitted.
- minidom getAttribute returns the empty string when the attribute is
  absent; getElementsByTagName returns all descendant elements with the
  given tag in document (pre-)order, including the root element when called
  on a parsed document, excluding the element itself when called on an
  element.
- A zipfile.ZipFile is modelled as its ordered entry list (name and size)
  plus a partial map from entry names to parsed XML documents: the map
  yields none exactly when epub.open raises (missing entry) or
  minidom.parseString raises (malformed document), which the program always
  handles through the same except-clause.
- Regular expressions are embedded by their matching semantics on the
  strings the program feeds them; the regex dot is treated as matching any
  character and case folding is ASCII Char.toLower, matching the intent of
  re.IGNORECASE on the ASCII paths involved.
- Python exceptions inside a strategy are modelled with Except; the
  try/except wrappers of the source convert them to none.
-/

namespace Epub

mutual
/-- An XML element as seen through minidom: tag name, attribute list,
child elements in document order. The child sequence is its own inductive
rather than a List so that the tree traversals below compile by structural
recursion and evaluate inside the kernel. -/
inductive Xml where
  | elem (tag : String) (attrs : List (String × String)) (children : XmlList)
/-- A sequence of sibling elements. -/
inductive XmlList where
  | nil
  | cons (x : Xml) (xs : XmlList)
end

def XmlList.ofList : List Xml → XmlList
  | [] => .nil
  | x :: xs => .cons x (XmlList.ofList xs)

/-- Build an element from a plain list of children. -/
def xe (tag : String) (attrs : List (String × String)) (children : List Xml) : Xml :=
  .elem tag attrs (XmlList.ofList children)

def Xml.tag : Xml → String
  | .elem t _ _ => t

def Xml.attrs : Xml → List (String × String)
  | .elem _ a _ => a

def Xml.children : Xml → XmlList
  | .elem _ _ c => c

/-- minidom getAttribute: the attribute value, or the empty string when the
attribute is absent. -/
def Xml.getAttribute (x : Xml) (attr : String) : String :=
  (List.lookup attr x.attrs).getD ""

mutual
/-- All elements with the given tag inside a tree, the root included, in
document (pre-)order: a matching element is listed before its matching
descendants, which are listed before its matching right siblings. -/
def elemsIn (tag : String) : Xml → List Xml
  | .elem t a cs => (if t = tag then [Xml.elem t a cs] else []) ++ elemsInList tag cs
termination_by structural x => x
/-- The same search over a sequence of sibling trees. -/
def elemsInList (tag : String) : XmlList → List Xml
  | .nil => []
  | .cons x xs => elemsIn tag x ++ elemsInList tag xs
termination_by structural l => l
end

/-- minidom Document.getElementsByTagName: searches the whole tree, the
root element included. -/
def docElems (doc : Xml) (tag : String) : List Xml :=
  elemsIn tag doc

/-- minidom Element.getElementsByTagName: searches the descendants of the
element, the element itself excluded. -/
def Xml.childElems (x : Xml) (tag : String) : List Xml :=
  elemsInList tag x.children

/-- Contiguous-sublist test on character lists, the semantics of the
Python substring operator `in`. -/
def listHasSub (pat : List Char) : List Char → Bool
  | [] => pat.isEmpty
  | c :: rest => pat.isPrefixOf (c :: rest) || listHasSub pat rest

/-- Python `pat in s` substring test. -/
def strContains (s pat : String) : Bool :=
  listHasSub pat.data s.data

/-- img_ext_regex: re.match of the anchored pattern with jpg, jpeg or png
after a dot at the end of the string, case-insensitive. The source applies
it either to the raw name (re.IGNORECASE) or to the lowered name; both
reduce to this test. -/
def isImg (s : String) : Bool :=
  let l := s.data.map Char.toLower
  List.isSuffixOf ['.', 'j', 'p', 'g'] l ||
  List.isSuffixOf ['.', 'j', 'p', 'e', 'g'] l ||
  List.isSuffixOf ['.', 'p', 'n', 'g'] l

/-- Does the list contain an occurrence of .jpg, .jpeg or .png anywhere
(not necessarily at the end)? -/
def hasImgExtSub (t : List Char) : Bool :=
  listHasSub ['.', 'j', 'p', 'g'] t ||
  listHasSub ['.', 'j', 'p', 'e', 'g'] t ||
  listHasSub ['.', 'p', 'n', 'g'] t

/-- Scan for an occurrence of cover followed (anywhere later, not
necessarily at the end) by .jpg, .jpeg or .png. Scanning from the first
occurrence of cover is equivalent to the existence of any such pair of
occurrences, which is the matching semantics of cover_regex under
re.match. -/
def coverScan : List Char → Bool
  | [] => false
  | c :: rest =>
    if List.isPrefixOf ['c', 'o', 'v', 'e', 'r'] (c :: rest) then
      hasImgExtSub (List.drop 4 rest)
    else coverScan rest

/-- cover_regex: re.match of the unanchored pattern: some occurrence of
cover followed later by a dot and jpg, jpeg or png, case-insensitive.
The pattern has no end anchor, so the extension need not end the string. -/
def coverMatch (s : String) : Bool :=
  coverScan (s.data.map Char.toLower)

/-- Python str.replace of a single backslash with a slash (first step of
normalize_path). -/
def replaceBackslashes : List Char → List Char
  | [] => []
  | c :: rest => (if c = '\\' then '/' else c) :: replaceBackslashes rest

/-- Python str.replace of a double slash with a single slash: one
left-to-right pass over non-overlapping occurrences (second step of
normalize_path). -/
def collapseDoubleSlash : List Char → List Char
  | [] => []
  | [c] => [c]
  | c :: d :: rest =>
    if c = '/' ∧ d = '/' then '/' :: collapseDoubleSlash rest
    else c :: collapseDoubleSlash (d :: rest)

/-- normalize_path from the source: replace backslashes with slashes, then
replace double slashes with single slashes (both with Python str.replace
semantics). -/
def normalize_path (path : String) : String :=
  String.mk (collapseDoubleSlash (replaceBackslashes path.data))

/-- posixpath.dirname: everything up to the last slash, with trailing
slashes stripped unless the result consists of slashes only. -/
def dirname (p : String) : String :=
  let cs := p.data
  let keep := cs.length - (cs.reverse.takeWhile (fun c => c != '/')).length
  let head := cs.take keep
  if (!head.isEmpty) && head.any (fun c => c != '/') then
    String.mk ((head.reverse.dropWhile (fun c => c == '/')).reverse)
  else String.mk head

/-- posixpath.join of two components, the os.path.join the source relies
on for in-archive paths. -/
def pjoin (a b : String) : String :=
  if b.data.head? == some '/' then b
  else if a.data.isEmpty || (a.data.getLast? == some '/') then a ++ b
  else a ++ "/" ++ b

/-- The path pattern the source repeats for every candidate:
normalize_path(os.path.join(os.path.dirname(base), href)). -/
def resolvedRef (base href : String) : String :=
  normalize_path (pjoin (dirname base) href)

/-- A zipfile entry: name as stored and uncompressed byte size
(ZipInfo.filename, ZipInfo.file_size). -/
structure FileInfo where
  filename : String
  file_size : Nat
deriving DecidableEq

/-- An EPUB opened as a zip archive: the ordered entry listing, and the
partial map from entry names to parsed XML documents (none models an
open or parse failure for that name). -/
structure Archive where
  filelist : List FileInfo
  contents : String → Option Xml

/-- _get_rootfile_root: open and parse META-INF/container.xml, take the
first rootfile element, read its full-path attribute, open and parse that
path. Raises (Except.error) on a missing or malformed container, on a
missing rootfile element (IndexError on [0]), or on a missing or
malformed package document. -/
def _get_rootfile_root (epub : Archive) : Except String (String × Xml) :=
  match epub.contents "META-INF/container.xml" with
  | none => .error "container.xml"
  | some container_root =>
    match docElems container_root "rootfile" with
    | [] => .error "IndexError: rootfile"
    | elemRoot :: _ =>
      match epub.contents (elemRoot.getAttribute "full-path") with
      | none => .error "rootfile open"
      | some rootfile_root => .ok (elemRoot.getAttribute "full-path", rootfile_root)

/-- The meta scan of get_cover_from_manifest: the content attribute of the
first meta element whose name attribute is cover; none when there is no
such meta (cover_id stays Python None). -/
def findCoverId (root : Xml) : Option String :=
  (docElems root "meta").findSome? (fun m =>
    if m.getAttribute "name" = "cover" then some (m.getAttribute "content") else none)

/-- The per-item test of get_cover_from_manifest, with the source local
names. A Python comparison of a string with cover_id is False when
cover_id is None, hence the Option equality. -/
def itemMatches (cover_id : Option String) (item : Xml) : Bool :=
  let item_id := item.getAttribute "id"
  let item_properties := item.getAttribute "properties"
  let item_href := item.getAttribute "href"
  let item_href_is_image := isImg item_href
  let item_id_might_be_cover :=
    (some item_id == cover_id) || (strContains item_id "cover" && item_href_is_image)
  let item_properties_might_be_cover :=
    (some item_properties == cover_id) || (strContains item_properties "cover" && item_href_is_image)
  item_id_might_be_cover || item_properties_might_be_cover

/-- get_cover_from_manifest before its try/except: locate the rootfile,
take cover_id from the meta scan, take the first manifest element
(IndexError when absent), and return the resolved href of the first
matching item, none when no item matches. -/
def get_cover_from_manifest_body (epub : Archive) : Except String (Option String) :=
  match _get_rootfile_root epub with
  | .error e => .error e
  | .ok (rootfile_path, rootfile_root) =>
    let cover_id := findCoverId rootfile_root
    match docElems rootfile_root "manifest" with
    | [] => .error "IndexError: manifest"
    | manifest :: _ =>
      .ok (((manifest.childElems "item").find? (itemMatches cover_id)).map
        (fun item => resolvedRef rootfile_path (item.getAttribute "href")))

/-- get_cover_from_manifest: the body with its except-clause turning any
exception into None. -/
def get_cover_from_manifest (epub : Archive) : Option String :=
  match get_cover_from_manifest_body epub with
  | .ok r => r
  | .error _ => none

/-- The reference loop of get_cover_by_guide. For each reference whose
type attribute is cover, resolve its href against the rootfile directory
and open and parse it; the inner try/except turns an open or parse
failure into a continue, and an empty img list also falls through to the
next reference. The first cover reference whose document yields an img
element returns that img src resolved against the document directory. -/
def guideScan (epub : Archive) (rootfile_path : String) : List Xml → Option String
  | [] => none
  | ref :: rest =>
    if ref.getAttribute "type" = "cover" then
      let cover_file_path := resolvedRef rootfile_path (ref.getAttribute "href")
      match epub.contents cover_file_path with
      | none => guideScan epub rootfile_path rest
      | some cover_dom =>
        match docElems cover_dom "img" with
        | [] => guideScan epub rootfile_path rest
        | img :: _ => some (resolvedRef cover_file_path (img.getAttribute "src"))
    else guideScan epub rootfile_path rest

/-- get_cover_by_guide before its outer try/except: locate the rootfile
and run the reference loop. -/
def get_cover_by_guide_body (epub : Archive) : Except String (Option String) :=
  match _get_rootfile_root epub with
  | .error e => .error e
  | .ok (rootfile_path, rootfile_root) =>
    .ok (guideScan epub rootfile_path (docElems rootfile_root "reference"))

/-- get_cover_by_guide: the body with its except-clause turning any
exception into None. -/
def get_cover_by_guide (epub : Archive) : Option String :=
  match get_cover_by_guide_body epub with
  | .ok r => r
  | .error _ => none

/-- Python max(l, key=file_size) with an explicit first element: keeps the
earlier element on ties (a later element replaces the current maximum only
when strictly larger). -/
def maxBySize (best : FileInfo) : List FileInfo → FileInfo
  | [] => best
  | f :: rest => maxBySize (if best.file_size < f.file_size then f else best) rest

/-- The entry loop of get_cover_by_filename: return the first entry
matching cover_regex immediately; otherwise accumulate entries matching
img_ext_regex and, after the scan, return the largest accumulated entry,
none when nothing was accumulated. Nothing in the loop can raise, so the
try/except of the source is not represented. -/
def filenameScan (acc : List FileInfo) : List FileInfo → Option String
  | [] =>
    match acc with
    | [] => none
    | f :: rest => some (maxBySize f rest).filename
  | f :: rest =>
    if coverMatch f.filename then some f.filename
    else if isImg f.filename then filenameScan (acc ++ [f]) rest
    else filenameScan acc rest

/-- get_cover_by_filename. -/
def get_cover_by_filename (epub : Archive) : Option String :=
  filenameScan [] epub.filelist

/-- find_any_image: the first entry of the listing whose name matches
img_ext_regex. -/
def find_any_image_go : List FileInfo → Option String
  | [] => none
  | f :: rest => if isImg f.filename then some f.filename else find_any_image_go rest

/-- find_any_image over the archive listing. -/
def find_any_image (epub : Archive) : Option String :=
  find_any_image_go epub.filelist

/-- The check the main loop and extract_cover share: a candidate counts
only when truthy (a non-empty path), and succeeds only when extraction of
that path succeeds; extractOk is the oracle for the open, decode, resize
and save steps of extract_cover, which are outside the resolution core. -/
def attemptCandidate (extractOk : String → Bool) (cover_path : Option String) : Option String :=
  match cover_path with
  | none => none
  | some p => if p = "" then none else if extractOk p then some p else none

/-- One iteration of the main strategy loop: run the strategy, then gate
its candidate through extraction. -/
def tryStrategy (extractOk : String → Bool) (epub : Archive) (strat : Archive → Option String) :
    Option String :=
  attemptCandidate extractOk (strat epub)

/-- extraction_strategies of the source, in order. -/
def extraction_strategies : List (Epub.Archive → Option String) :=
  [get_cover_from_manifest, get_cover_by_guide, get_cover_by_filename]

/-- The main strategy loop: first successfully extracted candidate wins;
the break makes later strategies irrelevant. -/
def runStrategies (extractOk : String → Bool) (epub : Archive) :
    List (Archive → Option String) → Option String
  | [] => none
  | s :: rest =>
    match tryStrategy extractOk epub s with
    | some p => some p
    | none => runStrategies extractOk epub rest

/-- The whole resolution of the main block: the strategy loop over the
given list, then the find_any_image fallback, itself gated through
extraction. Returns the path whose extraction succeeded, none when the
run ends without a thumbnail. -/
def resolveWith (extractOk : String → Bool) (epub : Archive)
    (strats : List (Archive → Option String)) : Option String :=
  match runStrategies extractOk epub strats with
  | some p => some p
  | none => attemptCandidate extractOk (find_any_image epub)

/-- The full chain with the fixed strategy list of the source. -/
def mainResolve (extractOk : String → Bool) (epub : Archive) : Option String :=
  resolveWith extractOk epub extraction_strategies

/-- Observable outcome of one process run. -/
structure RunOutcome where
  exitCode : Nat
  wroteThumbnail : Bool
  printedUsage : Bool
deriving DecidableEq

/-- The main block: args is sys.argv without the program name, so the
length-3 test is the len(sys.argv) != 4 test of the source; zipResult is
none when opening or reading the input, or constructing the ZipFile,
raises; a thumbnail is written exactly when the chain returns a
successfully extracted candidate. The int conversion of the size argument
is assumed to succeed (a non-numeric size aborts with an uncaught
exception before any strategy runs and writes nothing). -/
def mainRun (args : List String) (zipResult : Option Archive) (extractOk : String → Bool) :
    RunOutcome :=
  if args.length ≠ 3 then ⟨1, false, true⟩
  else
    match zipResult with
    | none => ⟨1, false, false⟩
    | some epub =>
      match mainResolve extractOk epub with
      | some _ => ⟨0, true, false⟩
      | none => ⟨1, false, false⟩

/-- Two back-to-back resolutions of the same archive contents, no state
carried from the first to the second. -/
def resolveTwice (extractOk : String → Bool) (epub : Archive) : Option String × Option String :=
  (mainResolve extractOk epub, mainResolve extractOk epub)

/-! ### Helper lemmas -/

theorem find?_first {α : Type} (p : α → Bool) (pre : List α) (a : α) (post : List α)
    (hpre : ∀ x ∈ pre, p x = false) (ha : p a = true) :
    (pre ++ a :: post).find? p = some a := by
  induction pre with
  | nil => simp [List.find?, ha]
  | cons x xs ih =>
    have hx : p x = false := hpre x (by simp)
    simp only [List.cons_append, List.find?, hx]
    exact ih (fun y hy => hpre y (by simp [hy]))

theorem itemMatches_some_iff (X : String) (it : Xml) :
    itemMatches (some X) it = true ↔
      (it.getAttribute "id" = X
       ∨ (strContains (it.getAttribute "id") "cover" = true
          ∧ isImg (it.getAttribute "href") = true)
       ∨ it.getAttribute "properties" = X
       ∨ (strContains (it.getAttribute "properties") "cover" = true
          ∧ isImg (it.getAttribute "href") = true)) := by
  simp only [itemMatches, Bool.or_eq_true, Bool.and_eq_true, beq_iff_eq,
    Option.some.injEq]
  tauto

/-- The manifest strategy returns the resolved href of the first matching
manifest item, provided the rootfile is located and a manifest element
exists. -/
theorem manifest_returns_first (epub : Archive) (rootfile_path : String) (root manifest : Xml)
    (mrest : List Xml) (pre : List Xml) (item : Xml) (post : List Xml)
    (hroot : _get_rootfile_root epub = .ok (rootfile_path, root))
    (hman : docElems root "manifest" = manifest :: mrest)
    (hitems : manifest.childElems "item" = pre ++ item :: post)
    (hmatch : itemMatches (findCoverId root) item = true)
    (hpre : ∀ it ∈ pre, itemMatches (findCoverId root) it = false) :
    get_cover_from_manifest epub = some (resolvedRef rootfile_path (item.getAttribute "href")) := by
  simp only [get_cover_from_manifest, get_cover_from_manifest_body, hroot, hman, hitems]
  rw [find?_first _ pre item post hpre hmatch]
  simp

/-- Claim C1: with a cover meta naming X, the manifest strategy returns
the rootfile-relative, normalized href of the first manifest item, in
document order, that matches: (a) id equals X, or (b) id contains cover
and the href has an image extension, or (c) properties equals X, or (d)
properties contains cover and the href has an image extension. -/
theorem c1_manifest_first_match (epub : Archive) (rootfile_path : String) (root : Xml)
    (X : String) (manifest : Xml) (mrest : List Xml) (pre : List Xml) (item : Xml)
    (post : List Xml)
    (hroot : _get_rootfile_root epub = .ok (rootfile_path, root))
    (hmeta : findCoverId root = some X)
    (hman : docElems root "manifest" = manifest :: mrest)
    (hitems : manifest.childElems "item" = pre ++ item :: post)
    (hmatch : item.getAttribute "id" = X
      ∨ (strContains (item.getAttribute "id") "cover" = true
         ∧ isImg (item.getAttribute "href") = true)
      ∨ item.getAttribute "properties" = X
      ∨ (strContains (item.getAttribute "properties") "cover" = true
         ∧ isImg (item.getAttribute "href") = true))
    (hpre : ∀ it ∈ pre, ¬(it.getAttribute "id" = X
      ∨ (strContains (it.getAttribute "id") "cover" = true
         ∧ isImg (it.getAttribute "href") = true)
      ∨ it.getAttribute "properties" = X
      ∨ (strContains (it.getAttribute "properties") "cover" = true
         ∧ isImg (it.getAttribute "href") = true))) :
    get_cover_from_manifest epub = some (resolvedRef rootfile_path (item.getAttribute "href")) := by
  apply manifest_returns_first epub rootfile_path root manifest mrest pre item post hroot hman hitems
  · rw [hmeta]
    exact (itemMatches_some_iff X item).2 hmatch
  · intro it hit
    rw [hmeta]
    cases h : itemMatches (some X) it with
    | false => rfl
    | true => exact absurd ((itemMatches_some_iff X it).1 h) (hpre it hit)

/-! ### Concrete archives for witnesses and counterexamples -/

def containerC1 : Xml :=
  xe "container" []
    [xe "rootfiles" [] [xe "rootfile" [("full-path", "OEBPS/content.opf")] []]]

def itemTocC1 : Xml := xe "item" [("id", "toc"), ("href", "toc.ncx")] []

def itemCovC1 : Xml := xe "item" [("id", "cover-img"), ("href", "images/c.png")] []

def manifestC1 : Xml := xe "manifest" [] [itemTocC1, itemCovC1]

def rootC1 : Xml :=
  xe "package" []
    [xe "metadata" [] [xe "meta" [("name", "cover"), ("content", "cover-img")] []],
     manifestC1]

def epubC1 : Archive :=
  ⟨[], fun p =>
    if p = "META-INF/container.xml" then some containerC1
    else if p = "OEBPS/content.opf" then some rootC1
    else none⟩

/-- Witness for C1 on a concrete archive: the meta names cover-img, the
second manifest item carries that id, and the strategy returns its href
joined under OEBPS. -/
theorem c1_witness : get_cover_from_manifest epubC1 = some "OEBPS/images/c.png" := by
  rw [c1_manifest_first_match epubC1 "OEBPS/content.opf" rootC1 "cover-img" manifestC1 []
    [itemTocC1] itemCovC1 []
    (by rfl) (by rfl) (by rfl) (by rfl)
    (Or.inl (by rfl))
    (by decide)]
  rfl

/-- Claim C10: when the first cover meta has an absent or empty content
attribute, cover_id is the empty string (minidom getAttribute), any item
whose properties attribute is absent or empty passes the
properties-equals-coverId test, and the first such item (no earlier item
matching) has its href returned with no requirement that it be an image. -/
theorem c10_empty_cover_id (epub : Archive) (rootfile_path : String) (root manifest : Xml)
    (mrest : List Xml) (pre : List Xml) (item : Xml) (post : List Xml)
    (hroot : _get_rootfile_root epub = .ok (rootfile_path, root))
    (hmeta : findCoverId root = some "")
    (hman : docElems root "manifest" = manifest :: mrest)
    (hitems : manifest.childElems "item" = pre ++ item :: post)
    (hprops : item.getAttribute "properties" = "")
    (hpre : ∀ it ∈ pre, itemMatches (some "") it = false) :
    itemMatches (some "") item = true
    ∧ get_cover_from_manifest epub =
        some (resolvedRef rootfile_path (item.getAttribute "href")) := by
  have hm : itemMatches (some "") item = true := by
    simp [itemMatches, hprops]
  refine ⟨hm, ?_⟩
  exact manifest_returns_first epub rootfile_path root manifest mrest pre item post hroot
    hman hitems (by rw [hmeta]; exact hm) (fun it hit => by rw [hmeta]; exact hpre it hit)

def containerC10 : Xml := xe "container" [] [xe "rootfile" [("full-path", "book.opf")] []]

def itemC10 : Xml := xe "item" [("id", "ch1"), ("href", "chapter1.xhtml")] []

def manifestC10 : Xml := xe "manifest" [] [itemC10]

def rootC10 : Xml := xe "package" [] [xe "meta" [("name", "cover")] [], manifestC10]

def epubC10 : Archive :=
  ⟨[], fun p =>
    if p = "META-INF/container.xml" then some containerC10
    else if p = "book.opf" then some rootC10
    else none⟩

/-- Witness for C10: the cover meta has no content attribute, the only
item has no properties attribute and a non-image href, and the strategy
returns that href. -/
theorem c10_witness :
    itemMatches (some "") itemC10 = true
    ∧ get_cover_from_manifest epubC10 = some "chapter1.xhtml"
    ∧ isImg "chapter1.xhtml" = false := by
  have h := c10_empty_cover_id epubC10 "book.opf" rootC10 manifestC10 [] [] itemC10 []
    (by rfl) (by rfl) (by rfl) (by rfl) (by rfl) (by intro it hit; cases hit)
  refine ⟨h.1, ?_, by rfl⟩
  rw [h.2]
  rfl

/-- The reference loop returns the resolved img src of the first cover
reference whose target opens, parses and yields an img element, skipping
cover references that fail to do so. -/
theorem guideScan_first_success (epub : Archive) (rootfile_path : String) :
    ∀ (pre : List Xml) (r : Xml) (post : List Xml) (dom img : Xml) (irest : List Xml),
      r.getAttribute "type" = "cover" →
      epub.contents (resolvedRef rootfile_path (r.getAttribute "href")) = some dom →
      docElems dom "img" = img :: irest →
      (∀ q ∈ pre, q.getAttribute "type" = "cover" →
        epub.contents (resolvedRef rootfile_path (q.getAttribute "href")) = none
        ∨ ∃ d, epub.contents (resolvedRef rootfile_path (q.getAttribute "href")) = some d
               ∧ docElems d "img" = []) →
      guideScan epub rootfile_path (pre ++ r :: post) =
        some (resolvedRef (resolvedRef rootfile_path (r.getAttribute "href"))
          (img.getAttribute "src")) := by
  intro pre
  induction pre with
  | nil =>
    intro r post dom img irest htype hopen himg _
    simp only [List.nil_append, guideScan, htype, if_pos, hopen, himg]
  | cons q qs ih =>
    intro r post dom img irest htype hopen himg hpre
    have hrest : ∀ x ∈ qs, x.getAttribute "type" = "cover" →
        epub.contents (resolvedRef rootfile_path (x.getAttribute "href")) = none
        ∨ ∃ d, epub.contents (resolvedRef rootfile_path (x.getAttribute "href")) = some d
               ∧ docElems d "img" = [] :=
      fun x hx => hpre x (by simp [hx])
    by_cases hqt : q.getAttribute "type" = "cover"
    · rcases hpre q (by simp) hqt with hnone | ⟨d, hd, hdi⟩
      · simp only [List.cons_append, guideScan, hqt, if_pos, hnone]
        exact ih r post dom img irest htype hopen himg hrest
      · simp only [List.cons_append, guideScan, hqt, if_pos, hd, hdi]
        exact ih r post dom img irest htype hopen himg hrest
    · simp only [List.cons_append, guideScan, if_neg hqt]
      exact ih r post dom img irest htype hopen himg hrest

/-- The reference loop yields none when every cover reference fails: its
target does not open or parse, or its document has no img element. -/
theorem guideScan_exhausted (epub : Archive) (rootfile_path : String) :
    ∀ (refs : List Xml),
      (∀ q ∈ refs, q.getAttribute "type" = "cover" →
        epub.contents (resolvedRef rootfile_path (q.getAttribute "href")) = none
        ∨ ∃ d, epub.contents (resolvedRef rootfile_path (q.getAttribute "href")) = some d
               ∧ docElems d "img" = []) →
      guideScan epub rootfile_path refs = none := by
  intro refs
  induction refs with
  | nil => intro _; rfl
  | cons q qs ih =>
    intro h
    have hrest : ∀ x ∈ qs, x.getAttribute "type" = "cover" →
        epub.contents (resolvedRef rootfile_path (x.getAttribute "href")) = none
        ∨ ∃ d, epub.contents (resolvedRef rootfile_path (x.getAttribute "href")) = some d
               ∧ docElems d "img" = [] :=
      fun x hx => h x (by simp [hx])
    by_cases hq : q.getAttribute "type" = "cover"
    · rcases h q (by simp) hq with hnone | ⟨d, hd, hdi⟩
      · simp only [guideScan, hq, if_pos, hnone]
        exact ih hrest
      · simp only [guideScan, hq, if_pos, hd, hdi]
        exact ih hrest
    · simp only [guideScan, if_neg hq]
      exact ih hrest

/-- Claim C2 (amended): the guide strategy scans all references in
document order, not only the first cover reference: a cover reference
whose target fails to open or parse, or contains no img element, is
skipped; the first cover reference that yields an img element determines
the result, the img src resolved against the referenced document
directory; when the rootfile cannot be located, or no cover reference
yields an img, the strategy yields no candidate (and never raises past
the strategy: it is a total function into an optional candidate). -/
theorem c2_guide_reference_scan (epub : Archive) :
    (∀ e, _get_rootfile_root epub = .error e → get_cover_by_guide epub = none)
    ∧ (∀ (rootfile_path : String) (root : Xml),
        _get_rootfile_root epub = .ok (rootfile_path, root) →
        ((∀ (pre : List Xml) (r : Xml) (post : List Xml) (dom img : Xml) (irest : List Xml),
            docElems root "reference" = pre ++ r :: post →
            r.getAttribute "type" = "cover" →
            epub.contents (resolvedRef rootfile_path (r.getAttribute "href")) = some dom →
            docElems dom "img" = img :: irest →
            (∀ q ∈ pre, q.getAttribute "type" = "cover" →
              epub.contents (resolvedRef rootfile_path (q.getAttribute "href")) = none
              ∨ ∃ d, epub.contents (resolvedRef rootfile_path (q.getAttribute "href")) = some d
                     ∧ docElems d "img" = []) →
            get_cover_by_guide epub =
              some (resolvedRef (resolvedRef rootfile_path (r.getAttribute "href"))
                (img.getAttribute "src")))
         ∧ ((∀ q ∈ docElems root "reference", q.getAttribute "type" = "cover" →
              epub.contents (resolvedRef rootfile_path (q.getAttribute "href")) = none
              ∨ ∃ d, epub.contents (resolvedRef rootfile_path (q.getAttribute "href")) = some d
                     ∧ docElems d "img" = []) →
            get_cover_by_guide epub = none))) := by
  refine ⟨?_, ?_⟩
  · intro e he
    simp [get_cover_by_guide, get_cover_by_guide_body, he]
  · intro rootfile_path root hroot
    constructor
    · intro pre r post dom img irest hrefs htype hopen himg hpre
      simp only [get_cover_by_guide, get_cover_by_guide_body, hroot, hrefs]
      exact guideScan_first_success epub rootfile_path pre r post dom img irest htype
        hopen himg hpre
    · intro hall
      simp only [get_cover_by_guide, get_cover_by_guide_body, hroot]
      exact guideScan_exhausted epub rootfile_path (docElems root "reference") hall

def containerC2 : Xml := xe "container" [] [xe "rootfile" [("full-path", "content.opf")] []]

def refBadC2 : Xml := xe "reference" [("type", "cover"), ("href", "bad.html")] []

def refGoodC2 : Xml := xe "reference" [("type", "cover"), ("href", "good.html")] []

def rootC2 : Xml := xe "package" [] [xe "guide" [] [refBadC2, refGoodC2]]

def imgC2 : Xml := xe "img" [("src", "cov2.png")] []

def goodDomC2 : Xml := xe "html" [] [xe "body" [] [imgC2]]

def epubC2 : Archive :=
  ⟨[], fun p =>
    if p = "META-INF/container.xml" then some containerC2
    else if p = "content.opf" then some rootC2
    else if p = "good.html" then some goodDomC2
    else none⟩

/-- Counterexample to C2 as stated: the first reference with type cover
points to bad.html, which cannot be opened, yet the strategy does not
yield no candidate: the loop keeps scanning and returns the img src of
the second cover reference. -/
theorem c2_counterexample :
    docElems rootC2 "reference" = [refBadC2, refGoodC2]
    ∧ refBadC2.getAttribute "type" = "cover"
    ∧ epubC2.contents (resolvedRef "content.opf" (refBadC2.getAttribute "href")) = none
    ∧ get_cover_by_guide epubC2 = some "cov2.png" :=
  ⟨rfl, rfl, rfl, rfl⟩

def noImgDomC2 : Xml := xe "html" [] [xe "body" [] [xe "p" [] []]]

def epubC2x : Archive :=
  ⟨[], fun p =>
    if p = "META-INF/container.xml" then some containerC2
    else if p = "content.opf" then some rootC2
    else if p = "good.html" then some noImgDomC2
    else none⟩

/-- Witness for the amended C2: on the first archive the second cover
reference is the first one that works and its img src is returned; on the
second archive every cover reference fails (unopenable target, or a
target with no img element) and the strategy yields no candidate. -/
theorem c2_witness :
    get_cover_by_guide epubC2 = some "cov2.png"
    ∧ get_cover_by_guide epubC2x = none := by
  constructor
  · rw [((c2_guide_reference_scan epubC2).2 "content.opf" rootC2 (by rfl)).1 [refBadC2]
      refGoodC2 [] goodDomC2 imgC2 [] (by rfl) (by rfl) (by rfl) (by rfl)
      (by
        intro q hq _
        have hq2 : q = refBadC2 := by simpa using hq
        subst hq2
        exact Or.inl rfl)]
    rfl
  · refine ((c2_guide_reference_scan epubC2x).2 "content.opf" rootC2 (by rfl)).2 ?_
    intro q hq hc
    have hq2 : q ∈ [refBadC2, refGoodC2] := hq
    rcases List.mem_cons.1 hq2 with h1 | h2
    · subst h1
      exact Or.inl rfl
    · have h3 : q = refGoodC2 := by simpa using h2
      subst h3
      exact Or.inr ⟨noImgDomC2, rfl, rfl⟩

/-- The entry loop returns the first cover_regex match whatever has been
accumulated so far and whatever sizes follow. -/
theorem filenameScan_cover_hit :
    ∀ (pre acc : List FileInfo) (f : FileInfo) (post : List FileInfo),
      coverMatch f.filename = true →
      (∀ g ∈ pre, coverMatch g.filename = false) →
      filenameScan acc (pre ++ f :: post) = some f.filename := by
  intro pre
  induction pre with
  | nil =>
    intro acc f post hf _
    simp [filenameScan, hf]
  | cons g gs ih =>
    intro acc f post hf hpre
    have hg : coverMatch g.filename = false := hpre g (by simp)
    have hrest : ∀ x ∈ gs, coverMatch x.filename = false := fun x hx => hpre x (by simp [hx])
    cases hi : isImg g.filename with
    | true =>
      simp only [List.cons_append, filenameScan, hg, hi, Bool.false_eq_true, if_false,
        if_true]
      exact ih (acc ++ [g]) f post hf hrest
    | false =>
      simp only [List.cons_append, filenameScan, hg, hi, Bool.false_eq_true, if_false]
      exact ih acc f post hf hrest

/-- Claim C3 (amended): the filename strategy returns, immediately on the
first match in listing order and regardless of any larger image elsewhere,
the first entry matching cover_regex: an occurrence of cover followed
later in the name by .jpg, .jpeg or .png, case-insensitive, with the
extension not required to end the name (the pattern has no end anchor). -/
theorem c3_filename_cover_first (epub : Archive) (pre : List FileInfo) (f : FileInfo)
    (post : List FileInfo)
    (hlist : epub.filelist = pre ++ f :: post)
    (hf : coverMatch f.filename = true)
    (hpre : ∀ g ∈ pre, coverMatch g.filename = false) :
    get_cover_by_filename epub = some f.filename := by
  simp only [get_cover_by_filename, hlist]
  exact filenameScan_cover_hit pre [] f post hf hpre

def epubC3 : Archive := ⟨[⟨"cover.jpg.txt", 5⟩], fun _ => none⟩

/-- Counterexample to C3 as stated: cover_regex has no end anchor, so the
cover branch returns an entry that does not end in an image extension. -/
theorem c3_counterexample :
    get_cover_by_filename epubC3 = some "cover.jpg.txt"
    ∧ strContains "cover.jpg.txt" "cover" = true
    ∧ isImg "cover.jpg.txt" = false :=
  ⟨rfl, rfl, rfl⟩

def epubC3w : Archive :=
  ⟨[⟨"big.png", 99999⟩, ⟨"OEBPS/book-cover.jpeg", 7⟩], fun _ => none⟩

/-- Witness for the amended C3: the cover-named entry wins immediately
even though a much larger non-cover image precedes it. -/
theorem c3_witness : get_cover_by_filename epubC3w = some "OEBPS/book-cover.jpeg" :=
  c3_filename_cover_first epubC3w [⟨"big.png", 99999⟩] ⟨"OEBPS/book-cover.jpeg", 7⟩ []
    (by rfl) (by rfl) (by decide)

/-- Python max keeps its current maximum on ties, so a list whose elements
are all bounded by the seed returns the seed. -/
theorem maxBySize_all_le (best : FileInfo) :
    ∀ l : List FileInfo, (∀ g ∈ l, g.file_size ≤ best.file_size) → maxBySize best l = best := by
  intro l
  induction l with
  | nil => intro _; rfl
  | cons f rest ih =>
    intro h
    have hf : f.file_size ≤ best.file_size := h f (by simp)
    have hlt : ¬ best.file_size < f.file_size := by omega
    simp only [maxBySize, if_neg hlt]
    exact ih (fun g hg => h g (by simp [hg]))

/-- Python max over a nonempty list returns the first element of maximal
key: everything before it is strictly smaller, everything after it is no
larger. -/
theorem maxBySize_first :
    ∀ (rest : List FileInfo) (f : FileInfo) (pre : List FileInfo) (best : FileInfo)
      (post : List FileInfo),
      f :: rest = pre ++ best :: post →
      (∀ g ∈ pre, g.file_size < best.file_size) →
      (∀ g ∈ post, g.file_size ≤ best.file_size) →
      maxBySize f rest = best := by
  intro rest
  induction rest with
  | nil =>
    intro f pre best post heq hpre hpost
    cases pre with
    | nil =>
      simp only [List.nil_append] at heq
      cases heq
      rfl
    | cons p ps =>
      simp only [List.cons_append] at heq
      injection heq with h1 h2
      exact absurd h2.symm (by simp)
  | cons x rs ih =>
    intro f pre best post heq hpre hpost
    cases pre with
    | nil =>
      simp only [List.nil_append] at heq
      cases heq
      have hx : x.file_size ≤ f.file_size := hpost x (by simp)
      have hlt : ¬ f.file_size < x.file_size := by omega
      simp only [maxBySize, if_neg hlt]
      exact maxBySize_all_le f rs (fun g hg => hpost g (by simp [hg]))
    | cons p ps =>
      simp only [List.cons_append] at heq
      injection heq with h1 h2
      subst h1
      have hp : f.file_size < best.file_size := hpre f (by simp)
      cases ps with
      | nil =>
        simp only [List.nil_append] at h2
        cases h2
        simp only [maxBySize, if_pos hp]
        exact maxBySize_all_le x rs hpost
      | cons q qs =>
        simp only [List.cons_append] at h2
        injection h2 with h3 h4
        subst h3
        have hq : x.file_size < best.file_size := hpre x (by simp)
        simp only [maxBySize]
        refine ih (if f.file_size < x.file_size then x else f)
          ((if f.file_size < x.file_size then x else f) :: qs) best post ?_ ?_ hpost
        · rw [h4]
          simp
        · intro g hg
          rcases List.mem_cons.1 hg with hgm | hgq
          · subst hgm
            by_cases hfx : f.file_size < x.file_size
            · simp only [if_pos hfx]
              exact hq
            · simp only [if_neg hfx]
              exact hp
          · exact hpre g (by simp [hgq])

/-- With no cover_regex match in the remaining entries, the loop
accumulates exactly the image entries and finishes with the stable
maximum of accumulated-so-far plus remaining images. -/
theorem filenameScan_no_cover :
    ∀ (l acc : List FileInfo), (∀ f ∈ l, coverMatch f.filename = false) →
      filenameScan acc l =
        (match acc ++ l.filter (fun f => isImg f.filename) with
         | [] => none
         | f :: rest => some (maxBySize f rest).filename) := by
  intro l
  induction l with
  | nil =>
    intro acc _
    simp [filenameScan]
  | cons f rest ih =>
    intro acc h
    have hf : coverMatch f.filename = false := h f (by simp)
    have hrest : ∀ g ∈ rest, coverMatch g.filename = false := fun g hg => h g (by simp [hg])
    cases hi : isImg f.filename with
    | true =>
      simp only [filenameScan, hf, hi, Bool.false_eq_true, if_false, if_true]
      rw [ih (acc ++ [f]) hrest]
      simp only [List.filter_cons, hi, if_true, List.append_assoc, List.singleton_append]
    | false =>
      simp only [filenameScan, hf, hi, Bool.false_eq_true, if_false]
      rw [ih acc hrest]
      simp only [List.filter_cons, hi, Bool.false_eq_true, if_false]

/-- Claim C4: when no entry matches cover_regex, the filename strategy
returns none if the archive has no image entry, and otherwise the image
entry of largest byte size, ties broken in favor of the first-encountered
entry in listing order. -/
theorem c4_largest_image (epub : Archive)
    (hnc : ∀ f ∈ epub.filelist, coverMatch f.filename = false) :
    (epub.filelist.filter (fun f => isImg f.filename) = [] →
      get_cover_by_filename epub = none)
    ∧ (∀ (pre : List FileInfo) (best : FileInfo) (post : List FileInfo),
        epub.filelist.filter (fun f => isImg f.filename) = pre ++ best :: post →
        (∀ g ∈ pre, g.file_size < best.file_size) →
        (∀ g ∈ post, g.file_size ≤ best.file_size) →
        get_cover_by_filename epub = some best.filename) := by
  constructor
  · intro hempty
    simp only [get_cover_by_filename]
    rw [filenameScan_no_cover epub.filelist [] hnc]
    simp [hempty]
  · intro pre best post hfil hpre hpost
    simp only [get_cover_by_filename]
    rw [filenameScan_no_cover epub.filelist [] hnc]
    simp only [List.nil_append, hfil]
    cases hsplit : pre ++ best :: post with
    | nil => exact absurd hsplit (by simp)
    | cons f rest =>
      simp only [hsplit]
      rw [maxBySize_first rest f pre best post hsplit.symm hpre hpost]

def epubC4 : Archive := ⟨[⟨"img/a.jpg", 10240⟩, ⟨"img/b.png", 51200⟩], fun _ => none⟩

/-- Witness for C4: neither entry is cover-named, and the larger image
wins. -/
theorem c4_witness : get_cover_by_filename epubC4 = some "img/b.png" :=
  (c4_largest_image epubC4 (by decide)).2 [⟨"img/a.jpg", 10240⟩] ⟨"img/b.png", 51200⟩ []
    (by decide) (by decide) (by decide)

/-- find_any_image is the first image entry of the listing. -/
theorem find_any_image_go_eq (l : List FileInfo) :
    find_any_image_go l = (l.find? (fun fi => isImg fi.filename)).map FileInfo.filename := by
  induction l with
  | nil => rfl
  | cons f r ih =>
    cases hi : isImg f.filename with
    | true => simp [find_any_image_go, List.find?, hi]
    | false => simp [find_any_image_go, List.find?, hi, ih]

/-- Claim C5: the chain runs manifest, guide, filename in that fixed
order; a strategy whose candidate extracts successfully ends the run at
once, whatever strategies follow; a strategy returning no candidate, or a
candidate whose extraction fails, hands over to the next; only after all
three produce nothing renderable does the fallback run, and the fallback
is the first listing entry with an image extension, none when there is no
such entry. -/
theorem c5_orchestration (extractOk : String → Bool) (epub : Archive) :
    (∀ (s : Archive → Option String) (rest : List (Archive → Option String)) (p : String),
      tryStrategy extractOk epub s = some p →
      runStrategies extractOk epub (s :: rest) = some p)
    ∧ (∀ p, tryStrategy extractOk epub get_cover_from_manifest = some p →
        mainResolve extractOk epub = some p)
    ∧ (tryStrategy extractOk epub get_cover_from_manifest = none →
       ∀ p, tryStrategy extractOk epub get_cover_by_guide = some p →
        mainResolve extractOk epub = some p)
    ∧ (tryStrategy extractOk epub get_cover_from_manifest = none →
       tryStrategy extractOk epub get_cover_by_guide = none →
       ∀ p, tryStrategy extractOk epub get_cover_by_filename = some p →
        mainResolve extractOk epub = some p)
    ∧ (tryStrategy extractOk epub get_cover_from_manifest = none →
       tryStrategy extractOk epub get_cover_by_guide = none →
       tryStrategy extractOk epub get_cover_by_filename = none →
        mainResolve extractOk epub = attemptCandidate extractOk (find_any_image epub))
    ∧ find_any_image epub =
        (epub.filelist.find? (fun fi => isImg fi.filename)).map FileInfo.filename := by
  refine ⟨?_, ?_, ?_, ?_, ?_, ?_⟩
  · intro s rest p h
    simp [runStrategies, h]
  · intro p h
    simp [mainResolve, resolveWith, extraction_strategies, runStrategies, h]
  · intro h1 p h
    simp [mainResolve, resolveWith, extraction_strategies, runStrategies, h1, h]
  · intro h1 h2 p h
    simp [mainResolve, resolveWith, extraction_strategies, runStrategies, h1, h2, h]
  · intro h1 h2 h3
    simp [mainResolve, resolveWith, extraction_strategies, runStrategies, h1, h2, h3]
  · exact find_any_image_go_eq epub.filelist

def epubC5 : Archive := ⟨[⟨"pic.png", 3⟩], fun _ => none⟩

/-- Witness for C5: manifest, guide and filename all fail before the
filename strategy returns the only image, which extracts. -/
theorem c5_witness : mainResolve (fun _ => true) epubC5 = some "pic.png" :=
  (c5_orchestration (fun _ => true) epubC5).2.2.2.1 rfl rfl "pic.png" rfl

/-- Claim C6: an exception raised inside the manifest strategy (here: any
failure locating the rootfile, parsing, or indexing the manifest) is
turned into no candidate for that strategy only, and the run continues
exactly as the chain started at the guide strategy; likewise an exception
inside the guide strategy hands over exactly to the filename strategy. -/
theorem c6_isolation (extractOk : String → Bool) (epub : Archive) :
    (∀ e, get_cover_from_manifest_body epub = .error e →
      mainResolve extractOk epub =
        resolveWith extractOk epub [get_cover_by_guide, get_cover_by_filename])
    ∧ (∀ e, get_cover_by_guide_body epub = .error e →
      resolveWith extractOk epub [get_cover_by_guide, get_cover_by_filename] =
        resolveWith extractOk epub [get_cover_by_filename]) := by
  constructor
  · intro e he
    have hm : get_cover_from_manifest epub = none := by
      simp [get_cover_from_manifest, he]
    simp [mainResolve, resolveWith, extraction_strategies, runStrategies, tryStrategy, hm,
      attemptCandidate]
  · intro e he
    have hg : get_cover_by_guide epub = none := by
      simp [get_cover_by_guide, he]
    simp [resolveWith, runStrategies, tryStrategy, hg, attemptCandidate]

def epubEmpty : Archive := ⟨[], fun _ => none⟩

/-- Witness for C6: an archive with no container at all makes the
manifest strategy raise, and the run equals the chain from the guide
strategy on. -/
theorem c6_witness :
    mainResolve (fun _ => true) epubEmpty =
      resolveWith (fun _ => true) epubEmpty [get_cover_by_guide, get_cover_by_filename] :=
  (c6_isolation (fun _ => true) epubEmpty).1 "container.xml" rfl

/-- Every character kept or produced by the backslash pass differs from a
backslash. -/
theorem replaceBackslashes_no_backslash (l : List Char) :
    ∀ c ∈ replaceBackslashes l, c ≠ '\\' := by
  induction l with
  | nil => simp [replaceBackslashes]
  | cons c rest ih =>
    intro d hd
    simp only [replaceBackslashes, List.mem_cons] at hd
    rcases hd with hd | hd
    · subst hd
      by_cases hc : c = '\\' <;> simp [hc]
    · exact ih d hd

/-- The double-slash pass only keeps characters of its input. -/
theorem collapseDoubleSlash_subset :
    ∀ (l : List Char), ∀ c ∈ collapseDoubleSlash l, c ∈ l := by
  intro l
  induction l using collapseDoubleSlash.induct with
  | case1 => simp [collapseDoubleSlash]
  | case2 c => simp [collapseDoubleSlash]
  | case3 c d rest h ih =>
    intro x hx
    simp only [collapseDoubleSlash, if_pos h] at hx
    rcases List.mem_cons.1 hx with h1 | h2
    · subst h1
      simp [h.1]
    · simp [ih x h2]
  | case4 c d rest h ih =>
    intro x hx
    simp only [collapseDoubleSlash, if_neg h] at hx
    rcases List.mem_cons.1 hx with h1 | h2
    · subst h1
      simp
    · have hm := ih x h2
      rcases List.mem_cons.1 hm with h3 | h4
      · subst h3
        simp
      · simp [h4]

/-- Claim C7 (amended): normalize_path output never contains a backslash,
and double slashes are replaced in one left-to-right pass over
non-overlapping occurrences, so the example with a single backslash and a
double slash normalizes fully while three slashes in a row leave a double
slash behind. -/
theorem c7_normalize_path (s : String) :
    (∀ c ∈ (normalize_path s).data, c ≠ '\\')
    ∧ normalize_path "a\\b//c" = "a/b/c"
    ∧ normalize_path "a///b" = "a//b" := by
  refine ⟨?_, rfl, rfl⟩
  intro c hc
  change c ∈ collapseDoubleSlash (replaceBackslashes s.data) at hc
  exact replaceBackslashes_no_backslash s.data c (collapseDoubleSlash_subset _ c hc)

/-- Counterexample to C7 as stated: a triple slash keeps a doubled
separator after normalize_path, because Python str.replace does one
non-overlapping pass. -/
theorem c7_counterexample :
    normalize_path "a///b" = "a//b" ∧ strContains "a//b" "//" = true :=
  ⟨rfl, rfl⟩

/-- Claim C8: exit code 0 exactly when a thumbnail was written; a wrong
positional-argument count prints the usage line and exits 1; an input
that does not open as a zip archive exits 1; an exhausted chain exits 1. -/
theorem c8_exit_codes (args : List String) (zipResult : Option Archive)
    (extractOk : String → Bool) :
    ((mainRun args zipResult extractOk).exitCode = 0 ↔
      (mainRun args zipResult extractOk).wroteThumbnail = true)
    ∧ (args.length ≠ 3 → mainRun args zipResult extractOk = ⟨1, false, true⟩)
    ∧ (args.length = 3 → zipResult = none →
        mainRun args zipResult extractOk = ⟨1, false, false⟩)
    ∧ (∀ epub, args.length = 3 → zipResult = some epub →
        mainResolve extractOk epub = none →
        mainRun args zipResult extractOk = ⟨1, false, false⟩)
    ∧ (∀ epub p, args.length = 3 → zipResult = some epub →
        mainResolve extractOk epub = some p →
        mainRun args zipResult extractOk = ⟨0, true, false⟩) := by
  refine ⟨?_, ?_, ?_, ?_, ?_⟩
  · by_cases hlen : args.length = 3
    · cases zipResult with
      | none => simp [mainRun, hlen]
      | some epub =>
        cases h : mainResolve extractOk epub with
        | none => simp [mainRun, hlen, h]
        | some p => simp [mainRun, hlen, h]
    · simp [mainRun, hlen]
  · intro hlen
    simp [mainRun, hlen]
  · intro hlen hz
    simp [mainRun, hlen, hz]
  · intro epub hlen hz h
    simp [mainRun, hlen, hz, h]
  · intro epub p hlen hz h
    simp [mainRun, hlen, hz, h]

/-- Witness for C8: two positional arguments print usage and exit 1. -/
theorem c8_witness : mainRun ["in.epub", "out.png"] none (fun _ => true) = ⟨1, false, true⟩ :=
  (c8_exit_codes ["in.epub", "out.png"] none (fun _ => true)).2.1 (by decide)

/-- Claim C9: resolution is deterministic: two runs of the full chain
over the same archive contents, with no state carried over, return the
same candidate or the same absence of one. The embedded chain is a pure
function of the archive, as the source strategies only read the zip
listing and entry bytes. -/
theorem c9_deterministic (extractOk : String → Bool) (epub : Archive) :
    (resolveTwice extractOk epub).1 = (resolveTwice extractOk epub).2 := rfl

end Epub
